import Mathlib

/-!
Verification of the gnss_lib_py clock-file parsing / interpolation subsystem
and of the Android measurement loader.

The clock subsystem (`parse_clockfile`, `extract_clk`, `clk_snapshot`, the
`Clk` record) is exercised by `tests/parsers/test_clk.py` but its
implementation file is not part of the sources; those definitions are
modelled from the specification (each such definition’s doc comment
starts with `Modelled from the spec:`).  The Android loader
(`gnss_lib_py/parsers/android.py`) is embedded directly from its source.

All numeric values are modelled with exact rationals (`ℚ`).
-/

namespace GnssLib

/-! ## Data model for the clock subsystem -/

/-- Modelled from the spec: a timezone-aware UTC datetime as produced from the
six epoch date/time fields of a clock-file data line (spec §3, `utc_time`).
The implementation file `gnss_lib_py/parsers/clk.py` is missing from the
sources. -/
structure DateTime where
  year : ℤ
  month : ℕ
  day : ℕ
  hour : ℕ
  minute : ℕ
  second : ℚ
deriving DecidableEq, Repr

/-- Modelled from the spec: one parsed epoch for a satellite, pairing the
numeric timestamp, the clock bias and the derived UTC display time (spec §3,
Satellite Record fields). -/
structure Sample where
  tym : ℚ
  bias : ℚ
  utc : DateTime
deriving DecidableEq, Repr

/-- Modelled from the spec: the per-satellite Satellite Record with the three
parallel sequences `tym`, `clk_bias`, `utc_time` (spec §3).  The source class
`Clk` is missing from the sources. -/
structure Clk where
  prn : String
  tym : List ℚ
  clk_bias : List ℚ
  utc_time : List DateTime
deriving DecidableEq, Repr

instance : Inhabited Clk := ⟨⟨"", [], [], []⟩⟩

/-- Days from 1970-01-01 for a proleptic-Gregorian civil date
(Howard Hinnant's algorithm, with C-style truncated division). -/
def daysFromCivil (y : ℤ) (m d : ℕ) : ℤ :=
  let y' : ℤ := if m ≤ 2 then y - 1 else y
  let era : ℤ := (if 0 ≤ y' then y' else y' - 399).tdiv 400
  let yoe : ℤ := y' - era * 400
  let mp : ℕ := (m + 9) % 12
  let doy : ℕ := (153 * mp + 2) / 5 + d - 1
  let doe : ℤ := yoe * 365 + yoe.tdiv 4 - yoe.tdiv 100 + (doy : ℤ)
  era * 146097 + doe - 719468

/-- Modelled from the spec: the fixed reference epoch of the `tym` axis is the
GPS epoch 1980-01-06 (spec §3: milliseconds since a fixed reference epoch;
the reference test values, e.g. `tym = 1303668150000.0` for 2021-04-28
18:02:30, identify that epoch). -/
def gpsEpochDays : ℤ := daysFromCivil 1980 1 6

/-- Modelled from the spec: combine the six epoch fields of a data line into
the millisecond timestamp and the UTC display value, both derived from the
same fields (spec §4.1, epoch construction). -/
def mkSample (y mo d h mi : ℕ) (sec bias : ℚ) : Sample :=
  let days : ℤ := daysFromCivil (y : ℤ) mo d - gpsEpochDays
  let secOfDay : ℕ := h * 3600 + mi * 60
  { tym := ((days * 86400 + (secOfDay : ℤ) : ℤ) : ℚ) * 1000 + sec * 1000
    bias := bias
    utc := { year := (y : ℤ), month := mo, day := d, hour := h, minute := mi,
             second := sec } }

/-! ## Tokenising and numeric parsing -/

/-- Split a character list on spaces, dropping empty tokens. -/
def tokenizeAux : List Char → List Char → List (List Char)
  | [], cur => if cur.isEmpty then [] else [cur.reverse]
  | c :: cs, cur =>
    if c = ' ' then
      if cur.isEmpty then tokenizeAux cs [] else cur.reverse :: tokenizeAux cs []
    else tokenizeAux cs (c :: cur)

/-- Whitespace tokenisation of one text line of the input file. -/
def tokenize (s : String) : List (List Char) := tokenizeAux s.toList []

/-- Accumulate decimal digits; returns the value, the digit count and the
unconsumed remainder. -/
def takeDigitsAux : List Char → ℕ → ℕ → ℕ × ℕ × List Char
  | [], acc, n => (acc, n, [])
  | c :: cs, acc, n =>
    if c.isDigit then takeDigitsAux cs (acc * 10 + (c.toNat - 48)) (n + 1)
    else (acc, n, c :: cs)

/-- Parse a token consisting only of decimal digits. -/
def parseNatTok (cs : List Char) : Option ℕ :=
  match takeDigitsAux cs 0 0 with
  | (v, n, []) => if n = 0 then none else some v
  | _ => none

/-- Parse an unsigned decimal mantissa `digits[.digits]`; returns the value and
the unconsumed remainder. -/
def parseMantissa (cs : List Char) : Option (ℚ × List Char) :=
  match takeDigitsAux cs 0 0 with
  | (ip, nI, rest) =>
    match rest with
    | '.' :: rest2 =>
      match takeDigitsAux rest2 0 0 with
      | (fp, nF, rest3) =>
        if nI + nF = 0 then none
        else some ((ip : ℚ) + (fp : ℚ) / ((10 ^ nF : ℕ) : ℚ), rest3)
    | _ => if nI = 0 then none else some ((ip : ℚ), rest)

/-- Parse a decimal exponent `[+|-]digits` (whole remainder). -/
def parseExpPart (cs : List Char) : Option ℤ :=
  match cs with
  | '-' :: r => (parseNatTok r).map (fun n => -(n : ℤ))
  | '+' :: r => (parseNatTok r).map (fun n => (n : ℤ))
  | _ => (parseNatTok cs).map (fun n => (n : ℤ))

/-- Parse an unsigned rational with optional `e`/`E` exponent. -/
def parseRatCore (cs : List Char) : Option ℚ :=
  match parseMantissa cs with
  | none => none
  | some (m, rest) =>
    match rest with
    | [] => some m
    | 'e' :: r => (parseExpPart r).map (fun e => m * (10 : ℚ) ^ e)
    | 'E' :: r => (parseExpPart r).map (fun e => m * (10 : ℚ) ^ e)
    | _ => none

/-- Parse a signed rational number token. -/
def parseRat (cs : List Char) : Option ℚ :=
  match cs with
  | '-' :: rest => (parseRatCore rest).map Neg.neg
  | '+' :: rest => parseRatCore rest
  | _ => parseRatCore cs

/-! ## Data-line parsing -/

/-- Modelled from the spec: a parsed clock data record, i.e. the satellite
identifier together with its sample (spec §4.1, data-line fields). -/
structure DataRecord where
  prn : String
  sample : Sample
deriving DecidableEq, Repr

/-- Modelled from the spec: a PRN token is a constellation letter followed by a
two-digit number (spec §6, file format). -/
def validPrn (cs : List Char) : Bool :=
  match cs with
  | [c, d1, d2] => c.isAlpha && d1.isDigit && d2.isDigit
  | _ => false

/-- Modelled from the spec: parse the fields of a candidate data line; any
non-numeric field where a number is expected makes the line malformed
(spec §4.1 / §7: malformed lines are skipped). -/
def parseFields (sat y mo d h mi s cnt bias : List Char) : Option DataRecord :=
  if validPrn sat then
    match parseNatTok y, parseNatTok mo, parseNatTok d, parseNatTok h,
          parseNatTok mi, parseRat s, parseNatTok cnt, parseRat bias with
    | some yv, some mov, some dv, some hv, some miv, some sv, some _, some bv =>
      some { prn := String.mk sat, sample := mkSample yv mov dv hv miv sv bv }
    | _, _, _, _, _, _, _, _ => none
  else none

/-- Modelled from the spec: a data line carries the marker `AS`, the PRN, six
epoch fields, a count field and one or two floating point values; every other
line is a header/comment line (spec §6, file format). -/
def parseDataLine (toks : List (List Char)) : Option DataRecord :=
  match toks with
  | [m, sat, y, mo, d, h, mi, s, cnt, bias] =>
    if m = ['A', 'S'] then parseFields sat y mo d h mi s cnt bias else none
  | [m, sat, y, mo, d, h, mi, s, cnt, bias, _sigma] =>
    if m = ['A', 'S'] then parseFields sat y mo d h mi s cnt bias else none
  | _ => none

/-- Modelled from the spec: the usable data records of a file, in file order;
all other lines are skipped (spec §4.1). -/
def dataRecords (lines : List String) : List DataRecord :=
  lines.filterMap (fun l => parseDataLine (tokenize l))

/-! ## Grouping, sorting and record finalisation -/

/-- Modelled from the spec: append a data record to the per-satellite ordered
buffer, creating the buffer at first sight of the satellite (spec §4.1:
insertion order of first appearance). -/
def insertRecord (acc : List (String × List Sample)) (r : DataRecord) :
    List (String × List Sample) :=
  match acc with
  | [] => [(r.prn, [r.sample])]
  | (p, ss) :: rest =>
    if p = r.prn then (p, ss ++ [r.sample]) :: rest
    else (p, ss) :: insertRecord rest r

/-- Ordering of samples by timestamp. -/
def sampleLE (a b : Sample) : Prop := a.tym ≤ b.tym

instance : DecidableRel sampleLE :=
  fun a b => inferInstanceAs (Decidable (a.tym ≤ b.tym))

instance : IsTotal Sample sampleLE := ⟨fun a b => le_total a.tym b.tym⟩

instance : IsTrans Sample sampleLE := ⟨fun _ _ _ h1 h2 => le_trans h1 h2⟩

/-- Modelled from the spec: stable sort of a satellite's samples by timestamp,
performed before the Parse Result is returned (spec §4.1: the sorting
responsibility belongs to the parser). -/
def sortSamples (ss : List Sample) : List Sample := List.insertionSort sampleLE ss

/-- Modelled from the spec: deterministic duplicate-timestamp resolution,
last-seen-wins (spec §3: duplicates from malformed input are resolved
deterministically, last-seen-wins being one of the two admissible policies).
Assumes the input sorted by timestamp; keeps the last of each run of equal
timestamps. -/
def dedupLast : List Sample → List Sample
  | [] => []
  | [a] => [a]
  | a :: b :: rest =>
    if a.tym = b.tym then dedupLast (b :: rest)
    else a :: dedupLast (b :: rest)

/-- Modelled from the spec: build the final Satellite Record from a satellite's
accumulated samples: sort by time, resolve duplicate timestamps, project the
three parallel sequences (spec §3, §4.1). -/
def finalizeRecord (prn : String) (ss : List Sample) : Clk :=
  let s := dedupLast (sortSamples ss)
  { prn := prn
    tym := s.map Sample.tym
    clk_bias := s.map Sample.bias
    utc_time := s.map Sample.utc }

/-! ## The parser entry point -/

/-- Modelled from the spec: the argument of `parse_clockfile` is either a
string/path-like value or not; a non-path-like argument (for example an empty
list) is rejected by a type check before any I/O (spec §4.1, §7). -/
inductive ClkArg where
  | path : String → ClkArg
  | notPathLike : ClkArg

/-- Modelled from the spec: the error taxonomy of the parser (spec §7). -/
inductive ClkError where
  | fileNotFound
  | typeError
deriving DecidableEq, Repr

/-- The filesystem as seen by one parse call: a map from paths to the list of
text lines of the file, `none` when the path does not resolve to a readable
file. -/
abbrev FileSystem : Type := String → Option (List String)

/-- Modelled from the spec: the Parse Result, a mapping from satellite
identifier to Satellite Record in first-seen insertion order (spec §3). -/
abbrev ParseResult : Type := List (String × Clk)

/-- Modelled from the spec: `parse_clockfile(path) -> ParseResult`
(spec §4.1).  Type-checks the argument before any I/O, fails with a
not-found error for an unreadable path, skips non-data lines, groups data
records per satellite in first-seen order and finalises every record
(sorted, duplicate-free timestamps) before returning. -/
def parse_clockfile (arg : ClkArg) (fs : FileSystem) :
    Except ClkError ParseResult :=
  match arg with
  | .notPathLike => .error .typeError
  | .path p =>
    match fs p with
    | none => .error .fileNotFound
    | some lines =>
      let grouped := (dataRecords lines).foldl insertRecord []
      .ok (grouped.map (fun e => (e.1, finalizeRecord e.1 e.2)))

/-! ## Interpolation engine -/

/-- Modelled from the spec: the interpolation basis selector (spec §4.2,
design note on the enumerated strategy; the reference tests only use
`CubicSpline`). -/
inductive Method where
  | CubicSpline
deriving DecidableEq, Repr

/-- Modelled from the spec: interpolation error taxonomy (spec §7,
out-of-range index). -/
inductive InterpError where
  | indexError
deriving DecidableEq, Repr

/-- One cubic polynomial piece of a spline, anchored at knot `x` with value
`a` there: `t ↦ a + b (t−x) + c (t−x)² + d (t−x)³`. -/
structure Piece where
  x : ℚ
  a : ℚ
  b : ℚ
  c : ℚ
  d : ℚ
deriving DecidableEq, Repr

/-- Modelled from the spec: the ephemeral interpolant object, bound to the
window of samples it was built from (spec §3). -/
structure Interpolant where
  pieces : List Piece
  method : Method
deriving DecidableEq, Repr

/-- Interior equations of the natural cubic spline tridiagonal system:
`(sub, diag, sup, rhs)` per interior knot. -/
def interiorEqs : List (ℚ × ℚ) → List (ℚ × ℚ × ℚ × ℚ)
  | (x0, y0) :: (x1, y1) :: (x2, y2) :: rest =>
    let h0 := x1 - x0
    let h1 := x2 - x1
    (h0, 2 * (h0 + h1), h1, 6 * ((y2 - y1) / h1 - (y1 - y0) / h0)) ::
      interiorEqs ((x1, y1) :: (x2, y2) :: rest)
  | _ => []

/-- Forward sweep of the Thomas tridiagonal algorithm; carries the previous
modified coefficients. -/
def thomasForward : List (ℚ × ℚ × ℚ × ℚ) → ℚ → ℚ → List (ℚ × ℚ)
  | [], _, _ => []
  | (a, b, c, d) :: rest, cp, dp =>
    let denom := b - a * cp
    let c' := c / denom
    let d' := (d - a * dp) / denom
    (c', d') :: thomasForward rest c' d'

/-- Back substitution of the Thomas algorithm on the reversed forward sweep;
carries the next solution component. -/
def thomasBack : List (ℚ × ℚ) → ℚ → List ℚ
  | [], _ => []
  | (c', d') :: rest, xnext =>
    let x := d' - c' * xnext
    x :: thomasBack rest x

/-- Second derivatives of the natural cubic spline at the knots (`M` values):
zero at both ends, interior values from the tridiagonal system. -/
def secondDerivs (pts : List (ℚ × ℚ)) : List ℚ :=
  let interior := thomasBack ((thomasForward (interiorEqs pts) 0 0).reverse) 0
  0 :: interior.reverse ++ [0]

/-- Polynomial coefficients `(b, c, d)` of each spline interval from the knot
second derivatives. -/
def bcds : List (ℚ × ℚ) → List ℚ → List (ℚ × ℚ × ℚ)
  | (x0, y0) :: (x1, y1) :: rest, m0 :: m1 :: ms =>
    let h := x1 - x0
    ((y1 - y0) / h - h * (2 * m0 + m1) / 6, m0 / 2, (m1 - m0) / (6 * h)) ::
      bcds ((x1, y1) :: rest) (m1 :: ms)
  | _, _ => []

/-- Assemble the pieces: the `i`-th piece is anchored at the `i`-th point
`(xᵢ, yᵢ)` with polynomial coefficients from `cs` (zero-padded when `cs` runs
out, which happens only for the final knot's extrapolation piece). -/
def mkPieces : List (ℚ × ℚ) → List (ℚ × ℚ × ℚ) → List Piece
  | [], _ => []
  | (x, y) :: rest, [] => ⟨x, y, 0, 0, 0⟩ :: mkPieces rest []
  | (x, y) :: rest, c :: cs => ⟨x, y, c.1, c.2.1, c.2.2⟩ :: mkPieces rest cs

/-- Modelled from the spec: the natural cubic spline through the windowed
`(tym, clk_bias)` pairs, as a list of knot-anchored polynomial pieces
(spec §4.2, numerical contract). -/
def naturalSplinePieces (pts : List (ℚ × ℚ)) : List Piece :=
  mkPieces pts (bcds pts (secondDerivs pts))

/-- Evaluate one piece at time `t`. -/
def evalPiece (p : Piece) (t : ℚ) : ℚ :=
  p.a + p.b * (t - p.x) + p.c * (t - p.x) ^ 2 + p.d * (t - p.x) ^ 3

/-- Select the governing piece for time `t`: the last piece whose knot does
not exceed `t`, the first piece when `t` precedes every knot. -/
def pickPiece (p : Piece) (ps : List Piece) (t : ℚ) : Piece :=
  match ps with
  | [] => p
  | q :: rest => if q.x ≤ t then pickPiece q rest t else p

/-- Evaluate the spline at time `t` (0 on an empty spline). -/
def evalSpline (ps : List Piece) (t : ℚ) : ℚ :=
  match ps with
  | [] => 0
  | p :: rest => evalPiece (pickPiece p rest t) t

/-- Modelled from the spec:
`extract_clk(record, index, window_radius, method) -> Interpolant`
(spec §4.2).  Fails with an index-range error for an index outside
`[0, len(tym))`; otherwise builds the interpolant from a symmetric window of
up to `ipos` samples on each side of `index`, clamped at the boundaries. -/
def extract_clk (rec : Clk) (index : ℤ) (ipos : ℕ) (method : Method) :
    Except InterpError Interpolant :=
  if index < 0 ∨ (rec.tym.length : ℤ) ≤ index then .error .indexError
  else
    let i := index.toNat
    let pts := rec.tym.zip rec.clk_bias
    let lo := i - ipos
    let win := (pts.drop lo).take (i + ipos + 1 - lo)
    .ok { pieces := naturalSplinePieces win, method := method }

/-- Modelled from the spec:
`clk_snapshot(interpolant, query_time, step, method) -> (bias, drift)`
(spec §4.2): the bias estimate is the interpolant at `query_time`; the drift
estimate is the centred finite difference with step `hstep`, scaled by 1000
to convert the millisecond `tym` axis to a seconds-per-second rate. -/
def clk_snapshot (f : Interpolant) (t : ℚ) (hstep : ℚ) (_method : Method) :
    ℚ × ℚ :=
  (evalSpline f.pieces t,
   (evalSpline f.pieces (t + hstep) - evalSpline f.pieces (t - hstep)) /
     (2 * hstep) * 1000)

/-- The speed-of-light constant of `gnss_lib_py.utils.constants`, in m/s. -/
def C : ℚ := 299792458

end GnssLib

namespace Android

/-! ## `gnss_lib_py/parsers/android.py` — embedded from the source -/

/-- The tabular container of `AndroidDerived2021`: row names mapped to ordered
numeric value sequences (one value per column index), in insertion order. -/
abbrev NavData : Type := List (String × List ℚ)

/-- Look up a row by name (`self[row, :]`), `none` when the row is absent. -/
def getRow (nd : NavData) (r : String) : Option (List ℚ) :=
  match nd with
  | [] => none
  | (k, v) :: rest => if k = r then some v else getRow rest r

/-- Set a row by name (`self[row] = values`): replace the existing row or
append a new one at the end. -/
def setRow (nd : NavData) (r : String) (v : List ℚ) : NavData :=
  match nd with
  | [] => [(r, v)]
  | (k, w) :: rest =>
    if k = r then (k, v) :: rest else (k, w) :: setRow rest r v

/-- `AndroidDerived2021.postprocess` (android.py lines 33–47), inherited
unchanged by `AndroidDerived2022`: computes
`corr_pr_m = raw_pr_m + b_sv_m - intersignal_bias_m - tropo_delay_m
- iono_delay_m` elementwise and stores it under the row name `corr_pr_m`.
Missing rows or mismatched row lengths make the numpy expression raise,
modelled by `none`. -/
def postprocess (nd : NavData) : Option NavData :=
  match getRow nd "raw_pr_m", getRow nd "b_sv_m",
        getRow nd "intersignal_bias_m", getRow nd "tropo_delay_m",
        getRow nd "iono_delay_m" with
  | some raw, some bsv, some isb, some tropo, some iono =>
    if raw.length = bsv.length ∧ raw.length = isb.length ∧
       raw.length = tropo.length ∧ raw.length = iono.length then
      some (setRow nd "corr_pr_m"
        (List.zipWith (fun a b => a - b)
          (List.zipWith (fun a b => a - b)
            (List.zipWith (fun a b => a - b)
              (List.zipWith (fun a b => a + b) raw bsv) isb) tropo) iono))
    else none
  | _, _, _, _, _ => none

/-! ### `AndroidRawImu.preprocess` (android.py lines 132–171) -/

/-- One CSV row, as the list of its fields. -/
abbrev Row : Type := List String

/-- Failure modes of `AndroidRawImu.preprocess`: indexing an empty row or an
empty first field (`row[0][0]`), and referencing the `accel`/`gyro` local
before any matching `#`-comment row bound it (Python's
`UnboundLocalError`). -/
inductive ImuError where
  | indexError
  | unboundLocal
  | keyError
deriving DecidableEq, Repr

/-- Substring test on character lists (Python's `in` on strings). -/
def containsSub (s pat : List Char) : Bool :=
  match s with
  | [] => pat.isEmpty
  | _ :: t => pat.isPrefixOf s || containsSub t pat

/-- The loop state of `AndroidRawImu.preprocess`: the `accel` and `gyro`
locals, unbound (`none`) until their header comment row is seen. -/
structure ImuSt where
  accel : Option (List Row)
  gyro : Option (List Row)
deriving DecidableEq, Repr

/-- The first field starts with `#` (the test `row[0][0] == '#'`, assuming the
field nonempty). -/
def isCommentField (f : String) : Bool := f.toList.headD ' ' == '#'

/-- One iteration of the `for row in reader` loop of
`AndroidRawImu.preprocess`. -/
def imuStep (st : ImuSt) (row : Row) : Except ImuError ImuSt :=
  match row with
  | [] => .error .indexError
  | f :: rest =>
    if f.toList.isEmpty then .error .indexError
    else if isCommentField f then
      if containsSub f.toList "Accel".toList then
        .ok { st with accel := some [rest] }
      else if containsSub f.toList "Gyro".toList then
        .ok { st with gyro := some [rest] }
      else .ok st
    else if f = "Accel" then
      match st.accel with
      | some a => .ok { st with accel := some (a ++ [rest]) }
      | none => .error .unboundLocal
    else if f = "Gyro" then
      match st.gyro with
      | some g => .ok { st with gyro := some (g ++ [rest]) }
      | none => .error .unboundLocal
    else .ok st

/-- Run the reader loop over all CSV rows. -/
def runRows (rows : List Row) (st : ImuSt) : Except ImuError ImuSt :=
  match rows with
  | [] => .ok st
  | r :: rest =>
    match imuStep st r with
    | .ok st' => runRows rest st'
    | .error e => .error e

/-- Drop the fields of a row at the positions where the header has one of the
given names (`gyro.drop(columns=...)`). -/
def dropCols (hdr : Row) (names : List String) (row : Row) : Row :=
  match hdr, row with
  | h :: hs, v :: vs =>
    if h ∈ names then dropCols hs names vs else v :: dropCols hs names vs
  | _, _ => row

/-- `AndroidRawImu.preprocess`: run the reader loop, then build the accel and
gyro tables from the bound locals; returns the pair of tables standing for
the concatenated measurement dataframe.  An unbound `accel`/`gyro` local is
an `unboundLocal` error; a gyro header missing the dropped columns is the
pandas `KeyError`. -/
def preprocess (rows : List Row) : Except ImuError (List Row × List Row) :=
  match runRows rows ⟨none, none⟩ with
  | .error e => .error e
  | .ok st =>
    match st.accel, st.gyro with
    | some accel, some gyro =>
      match accel, gyro with
      | ahdr :: adata, ghdr :: gdata =>
        if "utcTimeMillis" ∈ ghdr ∧ "elapsedRealtimeNanos" ∈ ghdr then
          .ok (ahdr :: adata,
               dropCols ghdr ["utcTimeMillis", "elapsedRealtimeNanos"] ghdr ::
                 gdata.map (dropCols ghdr ["utcTimeMillis", "elapsedRealtimeNanos"]))
        else .error .keyError
      | _, _ => .error .indexError
    | _, _ => .error .unboundLocal

/-- First field of a row is a `#` comment whose text contains `Accel`
(binds the `accel` local). -/
def isAccelComment (row : Row) : Bool :=
  match row with
  | [] => false
  | f :: _ =>
    !f.toList.isEmpty && isCommentField f &&
      containsSub f.toList "Accel".toList

/-- First field of a row is a `#` comment that binds the `gyro` local: it
contains `Gyro` but not `Accel` (the `elif` in the source). -/
def isGyroComment (row : Row) : Bool :=
  match row with
  | [] => false
  | f :: _ =>
    !f.toList.isEmpty && isCommentField f &&
      !containsSub f.toList "Accel".toList &&
      containsSub f.toList "Gyro".toList

/-- A data row labelled `Accel`. -/
def isAccelData (row : Row) : Bool :=
  match row with
  | [] => false
  | f :: _ => f == "Accel"

/-- A data row labelled `Gyro`. -/
def isGyroData (row : Row) : Bool :=
  match row with
  | [] => false
  | f :: _ => f == "Gyro"

/-- Decidable check that every `Accel` (resp. `Gyro`) data row is preceded by
its matching header comment row; `sa`/`sg` record whether such a comment was
already seen. -/
def headersPrecede (rows : List Row) (sa sg : Bool) : Bool :=
  match rows with
  | [] => true
  | r :: rest =>
    if isAccelData r && !sa then false
    else if isGyroData r && !sg then false
    else headersPrecede rest (sa || isAccelComment r) (sg || isGyroComment r)

end Android

/-! ## Concrete inputs used by the witness theorems -/

/-- Equality of `Except` outcomes is decidable when both components are. -/
instance {ε α : Type} [DecidableEq ε] [DecidableEq α] :
    DecidableEq (Except ε α) := fun a b =>
  match a, b with
  | .ok x, .ok y =>
    if h : x = y then isTrue (by rw [h]) else
      isFalse (fun hh => h (Except.ok.injEq .. ▸ hh))
  | .error x, .error y =>
    if h : x = y then isTrue (by rw [h]) else
      isFalse (fun hh => h (Except.error.injEq .. ▸ hh))
  | .ok _, .error _ => isFalse (fun hh => Except.noConfusion hh)
  | .error _, .ok _ => isFalse (fun hh => Except.noConfusion hh)

namespace GnssLib

/-- Lines of a small concrete clock file (one header line, three `G01` epochs
given out of time order, one `R01` epoch). -/
def wLines : List String :=
  ["HEADER LINE",
   "AS G01 2021 4 28 18 0 0.000000 2 -0.000123",
   "AS G01 2021 4 28 18 10 0.000000 2 -0.000125",
   "AS G01 2021 4 28 18 5 0.000000 2 -0.000124",
   "AS R01 2021 4 28 18 0 0.000000 2 0.000001"]

/-- A filesystem holding the concrete clock file under `grg.clk`. -/
def wFs : FileSystem := fun p => if p = "grg.clk" then some wLines else none

/-- The Parse Result of the concrete clock file. -/
def wRes : ParseResult :=
  (parse_clockfile (ClkArg.path "grg.clk") wFs).toOption.getD []

/-- The Satellite Record of `G01` in the concrete Parse Result. -/
def wRec : Clk := (wRes.getD 0 ("", default)).2

/-- The Satellite Record of `R01` in the concrete Parse Result. -/
def wRecR01 : Clk := (wRes.getD 1 ("", default)).2

/-- A filesystem holding a clock file with header lines but zero usable data
lines. -/
def wFsNodata : FileSystem :=
  fun p => if p = "nodata.clk" then some ["HEADER ONLY", "ANOTHER 1 2"] else none

end GnssLib

namespace Android

/-- A concrete one-column measurement table. -/
def nd0 : NavData :=
  [("raw_pr_m", [100]), ("b_sv_m", [2]), ("intersignal_bias_m", [1]),
   ("tropo_delay_m", [3]), ("iono_delay_m", [4]), ("other", [9])]

/-- The table after postprocessing. -/
def nd0post : NavData := (postprocess nd0).getD []

/-- A concrete raw IMU log whose header comment rows precede the data rows. -/
def imuRows0 : List Row :=
  [["# Accel", "utcTimeMillis", "elapsedRealtimeNanos", "AccelXMps2"],
   ["# Gyro", "utcTimeMillis", "elapsedRealtimeNanos", "GyroXRadPerSec"],
   ["Accel", "1", "2", "3"],
   ["Gyro", "1", "2", "4"]]

/-- The dataframe pair produced from the concrete raw IMU log. -/
def imuOut0 : List Row × List Row := (preprocess imuRows0).toOption.getD ([], [])

end Android

/-! ## Theorems: the clock subsystem -/

namespace GnssLib

/-- Any successful parse came from a path argument naming a readable file, and
its result is the grouped-and-finalised data records of that file. -/
theorem parse_ok_shape (arg : ClkArg) (fs : FileSystem) (res : ParseResult)
    (h : parse_clockfile arg fs = Except.ok res) :
    ∃ p lines, arg = ClkArg.path p ∧ fs p = some lines ∧
      res = ((dataRecords lines).foldl insertRecord []).map
        (fun e => (e.1, finalizeRecord e.1 e.2)) := by
  cases arg with
  | notPathLike => simp [parse_clockfile] at h
  | path p =>
    cases hfs : fs p with
    | none => rw [parse_clockfile, hfs] at h; simp at h
    | some lines =>
      rw [parse_clockfile, hfs] at h
      exact ⟨p, lines, rfl, hfs, by injection h with h; exact h.symm⟩

/-- Every record of a successful Parse Result is a finalised record. -/
theorem mem_parse_ok (arg : ClkArg) (fs : FileSystem) (res : ParseResult)
    (prn : String) (rec : Clk) (h : parse_clockfile arg fs = Except.ok res)
    (hm : (prn, rec) ∈ res) : ∃ ss, rec = finalizeRecord prn ss := by
  obtain ⟨p, lines, _, _, hres⟩ := parse_ok_shape arg fs res h
  rw [hres] at hm
  obtain ⟨e, _, he⟩ := List.mem_map.mp hm
  obtain ⟨h1, h2⟩ := Prod.mk.injEq .. ▸ he
  exact ⟨e.2, by rw [← h2, h1]⟩

/-- Claim C2: `parse_clockfile` fails with a `FileNotFoundError`-kind error
when the path does not resolve to a readable file, and with a
`TypeError`-kind error when the argument is not path-like; the type check
precedes any file I/O (the error is the same for every filesystem state), and
in both cases the error is the entire outcome (no partial Parse Result). -/
theorem claim_C2_errors :
    (∀ fs : FileSystem,
       parse_clockfile ClkArg.notPathLike fs = Except.error ClkError.typeError) ∧
    (∀ (p : String) (fs : FileSystem), fs p = none →
       parse_clockfile (ClkArg.path p) fs = Except.error ClkError.fileNotFound) := by
  refine ⟨fun fs => rfl, fun p fs h => ?_⟩
  rw [parse_clockfile, h]

/-- Witness for claim C2 at a concrete filesystem and missing path. -/
theorem claim_C2_errors_witness :
    parse_clockfile ClkArg.notPathLike wFs = Except.error ClkError.typeError ∧
    parse_clockfile (ClkArg.path "missing.clk") wFs =
      Except.error ClkError.fileNotFound :=
  ⟨claim_C2_errors.1 wFs, claim_C2_errors.2 "missing.clk" wFs (by decide)⟩

/-- Claim C3: a readable file with zero usable data lines parses to the empty
Parse Result, with no error. -/
theorem claim_C3_empty_result (p : String) (fs : FileSystem)
    (lines : List String) (hfs : fs p = some lines)
    (hnd : dataRecords lines = []) :
    parse_clockfile (ClkArg.path p) fs = Except.ok ([] : ParseResult) := by
  rw [parse_clockfile, hfs]
  simp [hnd]

/-- Witness for claim C3 at a concrete header-only file. -/
theorem claim_C3_empty_result_witness :
    parse_clockfile (ClkArg.path "nodata.clk") wFsNodata =
      Except.ok ([] : ParseResult) :=
  claim_C3_empty_result "nodata.clk" wFsNodata
    ["HEADER ONLY", "ANOTHER 1 2"] (by decide) (by decide)

/-- Claim C8: `extract_clk` fails with an index-range error for every integer
index outside `[0, len(tym))`. -/
theorem claim_C8_index_error (rec : Clk) (index : ℤ) (ipos : ℕ) (m : Method)
    (h : index < 0 ∨ (rec.tym.length : ℤ) ≤ index) :
    extract_clk rec index ipos m = Except.error InterpError.indexError := by
  rw [extract_clk, if_pos h]

/-- Witness for claim C8 at a concrete record and the index −1. -/
theorem claim_C8_index_error_witness :
    extract_clk wRec (-1) 10 Method.CubicSpline =
      Except.error InterpError.indexError :=
  claim_C8_index_error wRec (-1) 10 Method.CubicSpline (Or.inl (by decide))

end GnssLib

namespace GnssLib

/-- Members of the deduplicated list are members of the original list. -/
theorem mem_dedupLast : ∀ (l : List Sample) (x : Sample), x ∈ dedupLast l → x ∈ l
  | [], _, h => by simp [dedupLast] at h
  | [a], x, h => by simpa [dedupLast] using h
  | a :: b :: rest, x, h => by
    by_cases hab : a.tym = b.tym
    · have hx : x ∈ dedupLast (b :: rest) := by
        simpa [dedupLast, hab] using h
      exact List.mem_cons_of_mem a (mem_dedupLast (b :: rest) x hx)
    · rcases (by simpa [dedupLast, hab] using h :
          x = a ∨ x ∈ dedupLast (b :: rest)) with h1 | h2
      · simp [h1]
      · exact List.mem_cons_of_mem a (mem_dedupLast (b :: rest) x h2)

/-- On a timestamp-sorted sample list, last-wins deduplication yields strictly
increasing timestamps. -/
theorem dedupLast_pairwise : ∀ l : List Sample, List.Pairwise sampleLE l →
    List.Pairwise (fun u v : Sample => u.tym < v.tym) (dedupLast l)
  | [], _ => by simp [dedupLast]
  | [a], _ => by simp [dedupLast]
  | a :: b :: rest, h => by
    have htail : List.Pairwise sampleLE (b :: rest) := h.of_cons
    have hrel : ∀ x ∈ b :: rest, sampleLE a x := fun x hx => List.rel_of_pairwise_cons h hx
    by_cases hab : a.tym = b.tym
    · simpa [dedupLast, hab] using dedupLast_pairwise (b :: rest) htail
    · have hab' : a.tym < b.tym := lt_of_le_of_ne (hrel b (by simp)) hab
      have ih := dedupLast_pairwise (b :: rest) htail
      have hhead : ∀ x ∈ dedupLast (b :: rest), a.tym < x.tym := by
        intro x hx
        rcases List.mem_cons.mp (mem_dedupLast (b :: rest) x hx) with h1 | h2
        · rw [h1]; exact hab'
        · exact lt_of_lt_of_le hab' (List.rel_of_pairwise_cons htail h2)
      simpa [dedupLast, hab] using List.Pairwise.cons hhead ih

/-- The finalised record has strictly increasing timestamps. -/
theorem finalizeRecord_tym_pairwise (p : String) (ss : List Sample) :
    List.Pairwise (· < ·) (finalizeRecord p ss).tym := by
  have hs : List.Pairwise sampleLE (sortSamples ss) :=
    List.sorted_insertionSort sampleLE ss
  have hd := dedupLast_pairwise (sortSamples ss) hs
  simpa [finalizeRecord, List.pairwise_map] using hd

/-- The three sequences of a finalised record have one entry per sample. -/
theorem finalizeRecord_lengths (p : String) (ss : List Sample) :
    (finalizeRecord p ss).tym.length = (finalizeRecord p ss).clk_bias.length ∧
    (finalizeRecord p ss).clk_bias.length =
      (finalizeRecord p ss).utc_time.length := by
  simp [finalizeRecord]

/-- Claim C6: in every record of a Parse Result, `tym`, `clk_bias` and
`utc_time` have equal length; a satellite with zero samples keeps valid empty
sequences (the fields always exist, possibly as `[]`). -/
theorem claim_C6_parallel_lengths (arg : ClkArg) (fs : FileSystem)
    (res : ParseResult) (prn : String) (rec : Clk)
    (hres : parse_clockfile arg fs = Except.ok res) (hmem : (prn, rec) ∈ res) :
    rec.tym.length = rec.clk_bias.length ∧
    rec.clk_bias.length = rec.utc_time.length := by
  obtain ⟨ss, hrec⟩ := mem_parse_ok arg fs res prn rec hres hmem
  rw [hrec]
  exact finalizeRecord_lengths prn ss

/-- Claim C7: in every record of a Parse Result, `tym` is monotone
(non-decreasing) at return time — indeed strictly increasing, since the
parser sorts each satellite's samples and resolves duplicate timestamps by
the deterministic last-seen-wins policy before returning. -/
theorem claim_C7_monotone_tym (arg : ClkArg) (fs : FileSystem)
    (res : ParseResult) (prn : String) (rec : Clk)
    (hres : parse_clockfile arg fs = Except.ok res) (hmem : (prn, rec) ∈ res) :
    List.Pairwise (· ≤ ·) rec.tym ∧ List.Pairwise (· < ·) rec.tym := by
  obtain ⟨ss, hrec⟩ := mem_parse_ok arg fs res prn rec hres hmem
  rw [hrec]
  have h := finalizeRecord_tym_pairwise prn ss
  exact ⟨h.imp le_of_lt, h⟩

end GnssLib

namespace GnssLib

/-- Keys after inserting a record: unchanged if the satellite is already
present, appended otherwise. -/
theorem insertRecord_fst (acc : List (String × List Sample)) (r : DataRecord) :
    (insertRecord acc r).map Prod.fst =
      if r.prn ∈ acc.map Prod.fst then acc.map Prod.fst
      else acc.map Prod.fst ++ [r.prn] := by
  induction acc with
  | nil => simp [insertRecord]
  | cons e rest ih =>
    obtain ⟨p, ss⟩ := e
    by_cases hp : p = r.prn
    · simp [insertRecord, hp]
    · have hne : r.prn ≠ p := fun hh => hp hh.symm
      rw [insertRecord]
      simp only [List.map_cons, List.mem_cons, hne, false_or, if_neg hp]
      rw [ih]
      split_ifs with h1 <;> simp

/-- The fold over data records keeps the key list duplicate-free. -/
theorem foldl_insertRecord_nodup : ∀ (rs : List DataRecord)
    (acc : List (String × List Sample)), (acc.map Prod.fst).Nodup →
    ((rs.foldl insertRecord acc).map Prod.fst).Nodup
  | [], _, h => h
  | r :: rest, acc, h => by
    rw [List.foldl_cons]
    refine foldl_insertRecord_nodup rest (insertRecord acc r) ?_
    rw [insertRecord_fst]
    split_ifs with h1
    · exact h
    · simp [List.nodup_append, h, h1]

/-- A key appears after the fold exactly when it was already present or is
one of the folded records' satellites. -/
theorem foldl_insertRecord_mem : ∀ (rs : List DataRecord)
    (acc : List (String × List Sample)) (x : String),
    (x ∈ (rs.foldl insertRecord acc).map Prod.fst ↔
      x ∈ acc.map Prod.fst ∨ x ∈ rs.map DataRecord.prn)
  | [], acc, x => by simp
  | r :: rest, acc, x => by
    rw [List.foldl_cons, foldl_insertRecord_mem rest (insertRecord acc r) x,
      insertRecord_fst]
    by_cases hx : x = r.prn
    · subst hx
      split_ifs with h1 <;> simp [h1]
    · split_ifs with h1 <;> simp [hx]

/-- Claim C5: the Parse Result has exactly one entry per distinct satellite
identifier appearing in the file's data lines, each identifier keying exactly
one Satellite Record. -/
theorem claim_C5_distinct_sats (p : String) (fs : FileSystem)
    (lines : List String) (res : ParseResult) (hfs : fs p = some lines)
    (hres : parse_clockfile (ClkArg.path p) fs = Except.ok res) :
    res.length = ((dataRecords lines).map DataRecord.prn).toFinset.card ∧
    (res.map Prod.fst).Nodup := by
  have hshape : res = ((dataRecords lines).foldl insertRecord []).map
      (fun e => (e.1, finalizeRecord e.1 e.2)) := by
    rw [parse_clockfile, hfs] at hres
    injection hres with h
    exact h.symm
  have hfst : res.map Prod.fst =
      ((dataRecords lines).foldl insertRecord []).map Prod.fst := by
    rw [hshape, List.map_map]
    rfl
  have hnd : (((dataRecords lines).foldl insertRecord []).map Prod.fst).Nodup :=
    foldl_insertRecord_nodup _ [] (by simp)
  have hfinset : (((dataRecords lines).foldl insertRecord []).map
      Prod.fst).toFinset = ((dataRecords lines).map DataRecord.prn).toFinset := by
    ext x
    simp only [List.mem_toFinset]
    rw [foldl_insertRecord_mem]
    simp
  constructor
  · calc res.length = (res.map Prod.fst).length := (List.length_map _ _).symm
      _ = (((dataRecords lines).foldl insertRecord []).map Prod.fst).length := by
          rw [hfst]
      _ = (((dataRecords lines).foldl insertRecord []).map
            Prod.fst).toFinset.card := (List.toFinset_card_of_nodup hnd).symm
      _ = _ := by rw [hfinset]
  · rw [hfst]
    exact hnd

end GnssLib

/-! ## Theorems: the Android loader -/

namespace Android

/-- Reading back the row just set yields the new values. -/
theorem getRow_setRow_self : ∀ (nd : NavData) (r : String) (v : List ℚ),
    getRow (setRow nd r v) r = some v
  | [], r, v => by simp [setRow, getRow]
  | (k, w) :: rest, r, v => by
    by_cases h : k = r
    · simp [setRow, getRow, h]
    · simp [setRow, getRow, h, getRow_setRow_self rest r v]

/-- Setting one row leaves every other row unchanged. -/
theorem getRow_setRow_ne : ∀ (nd : NavData) (r r' : String) (v : List ℚ),
    r ≠ r' → getRow (setRow nd r v) r' = getRow nd r'
  | [], r, r', v, h => by simp [setRow, getRow, h]
  | (k, w) :: rest, r, r', v, h => by
    by_cases hk : k = r
    · subst hk
      simp [setRow, getRow, h]
    · simp [setRow, getRow, hk, getRow_setRow_ne rest r r' v h]

/-- Claim C9: `postprocess` (shared by `AndroidDerived2021` and
`AndroidDerived2022`) adds a row `corr_pr_m` whose value at every column
index is `raw_pr_m + b_sv_m - intersignal_bias_m - tropo_delay_m -
iono_delay_m` at that index, and modifies no other row. -/
theorem claim_C9_postprocess (nd nd' : NavData)
    (h : postprocess nd = some nd') :
    (∀ r, r ≠ "corr_pr_m" → getRow nd' r = getRow nd r) ∧
    ∃ raw bsv isb tropo iono corr,
      getRow nd "raw_pr_m" = some raw ∧
      getRow nd "b_sv_m" = some bsv ∧
      getRow nd "intersignal_bias_m" = some isb ∧
      getRow nd "tropo_delay_m" = some tropo ∧
      getRow nd "iono_delay_m" = some iono ∧
      getRow nd' "corr_pr_m" = some corr ∧
      corr.length = raw.length ∧
      ∀ i, i < corr.length →
        corr.getD i 0 = raw.getD i 0 + bsv.getD i 0 - isb.getD i 0 -
          tropo.getD i 0 - iono.getD i 0 := by
  rcases hraw : getRow nd "raw_pr_m" with _ | raw
  · simp [postprocess, hraw] at h
  rcases hbsv : getRow nd "b_sv_m" with _ | bsv
  · simp [postprocess, hraw, hbsv] at h
  rcases hisb : getRow nd "intersignal_bias_m" with _ | isb
  · simp [postprocess, hraw, hbsv, hisb] at h
  rcases htropo : getRow nd "tropo_delay_m" with _ | tropo
  · simp [postprocess, hraw, hbsv, hisb, htropo] at h
  rcases hiono : getRow nd "iono_delay_m" with _ | iono
  · simp [postprocess, hraw, hbsv, hisb, htropo, hiono] at h
  simp only [postprocess, hraw, hbsv, hisb, htropo, hiono] at h
  split_ifs at h with hlen
  · obtain ⟨e1, e2, e3, e4⟩ := hlen
    have hnd' : nd' = setRow nd "corr_pr_m"
        (List.zipWith (fun a b => a - b)
          (List.zipWith (fun a b => a - b)
            (List.zipWith (fun a b => a - b)
              (List.zipWith (fun a b => a + b) raw bsv) isb) tropo) iono) :=
      (Option.some.inj h).symm
    subst hnd'
    constructor
    · intro r hr
      exact getRow_setRow_ne nd "corr_pr_m" r _ (fun hh => hr hh.symm)
    · refine ⟨raw, bsv, isb, tropo, iono, _, rfl, rfl, rfl, rfl, rfl,
        getRow_setRow_self nd "corr_pr_m" _, ?_, ?_⟩
      · simp only [List.length_zipWith]
        omega
      · intro i hi
        simp only [List.length_zipWith] at hi
        have hir : i < raw.length := by omega
        have hib : i < bsv.length := by omega
        have hii : i < isb.length := by omega
        have hit : i < tropo.length := by omega
        have hio : i < iono.length := by omega
        have hiz : i < (List.zipWith (fun a b => a - b)
            (List.zipWith (fun a b => a - b)
              (List.zipWith (fun a b => a - b)
                (List.zipWith (fun a b => a + b) raw bsv) isb) tropo)
            iono).length := by
          simp only [List.length_zipWith]
          omega
        rw [List.getD_eq_getElem _ _ hiz, List.getD_eq_getElem _ _ hir,
          List.getD_eq_getElem _ _ hib, List.getD_eq_getElem _ _ hii,
          List.getD_eq_getElem _ _ hit, List.getD_eq_getElem _ _ hio]
        simp [List.getElem_zipWith]

end Android

namespace Android

/-- After a successful step, the `accel` local is bound exactly when it was
bound before or the row is an accel header comment. -/
theorem imuStep_accel_isSome : ∀ (st : ImuSt) (row : Row) (st' : ImuSt),
    imuStep st row = Except.ok st' →
    st'.accel.isSome = (st.accel.isSome || isAccelComment row)
  | st, [], st', h => by simp [imuStep] at h
  | st, f :: rest, st', h => by
    rw [imuStep] at h
    split_ifs at h with h1 h2 h3 h4 h5 h6 <;>
      first
      | (simp at h
         done)
      | (obtain rfl := Except.ok.inj h
         simp_all [isAccelComment]
         done)
      | (cases hacc : st.accel <;> rw [hacc] at h <;>
          first
          | (simp at h
             done)
          | (obtain rfl := Except.ok.inj h
             simp_all [isAccelComment]
             done))
      | (cases hgy : st.gyro <;> rw [hgy] at h <;>
          first
          | (simp at h
             done)
          | (obtain rfl := Except.ok.inj h
             simp_all [isAccelComment]
             done))

/-- After a successful step, the `gyro` local is bound exactly when it was
bound before or the row is a gyro header comment. -/
theorem imuStep_gyro_isSome : ∀ (st : ImuSt) (row : Row) (st' : ImuSt),
    imuStep st row = Except.ok st' →
    st'.gyro.isSome = (st.gyro.isSome || isGyroComment row)
  | st, [], st', h => by simp [imuStep] at h
  | st, f :: rest, st', h => by
    rw [imuStep] at h
    split_ifs at h with h1 h2 h3 h4 h5 h6 <;>
      first
      | (simp at h
         done)
      | (obtain rfl := Except.ok.inj h
         simp_all [isGyroComment]
         done)
      | (cases hacc : st.accel <;> rw [hacc] at h <;>
          first
          | (simp at h
             done)
          | (obtain rfl := Except.ok.inj h
             simp_all [isGyroComment]
             done))
      | (cases hgy : st.gyro <;> rw [hgy] at h <;>
          first
          | (simp at h
             done)
          | (obtain rfl := Except.ok.inj h
             simp_all [isGyroComment]
             done))

/-- A step over an `Accel` data row succeeds only when the `accel` local is
already bound. -/
theorem imuStep_accelData : ∀ (st : ImuSt) (row : Row) (st' : ImuSt),
    imuStep st row = Except.ok st' → isAccelData row = true →
    st.accel.isSome = true
  | st, [], st', h, hd => by simp [isAccelData] at hd
  | st, f :: rest, st', h, hd => by
    have hf : f = "Accel" := by simpa [isAccelData] using hd
    subst hf
    rw [imuStep] at h
    split_ifs at h with h1 h2 h3 h4 h5 h6 <;>
      first
      | (exact absurd h1 (by decide))
      | (exact absurd h2 (by decide))
      | (exact absurd h5 (by decide))
      | (exact absurd h6 (by decide))
      | (exact absurd rfl h5)
      | (exact absurd rfl h6)
      | (cases hacc : st.accel <;> rw [hacc] at h <;> simp_all
         done)
      | (cases hgy : st.gyro <;> rw [hgy] at h <;> simp_all
         done)

/-- A step over a `Gyro` data row succeeds only when the `gyro` local is
already bound. -/
theorem imuStep_gyroData : ∀ (st : ImuSt) (row : Row) (st' : ImuSt),
    imuStep st row = Except.ok st' → isGyroData row = true →
    st.gyro.isSome = true
  | st, [], st', h, hd => by simp [isGyroData] at hd
  | st, f :: rest, st', h, hd => by
    have hf : f = "Gyro" := by simpa [isGyroData] using hd
    subst hf
    rw [imuStep] at h
    split_ifs at h with h1 h2 h3 h4 h5 h6 <;>
      first
      | (exact absurd h1 (by decide))
      | (exact absurd h2 (by decide))
      | (exact absurd h5 (by decide))
      | (exact absurd h6 (by decide))
      | (exact absurd rfl h5)
      | (exact absurd rfl h6)
      | (cases hacc : st.accel <;> rw [hacc] at h <;> simp_all
         done)
      | (cases hgy : st.gyro <;> rw [hgy] at h <;> simp_all
         done)

/-- A successful reader loop implies that the header comments preceded the
data rows (relative to the locals already bound on entry). -/
theorem runRows_headersPrecede : ∀ (rows : List Row) (st st' : ImuSt),
    runRows rows st = Except.ok st' →
    headersPrecede rows st.accel.isSome st.gyro.isSome = true
  | [], _, _, _ => rfl
  | r :: rest, st, st', h => by
    cases hstep : imuStep st r with
    | error e => rw [runRows, hstep] at h; simp at h
    | ok st1 =>
      rw [runRows, hstep] at h
      have ha := imuStep_accel_isSome st r st1 hstep
      have hg := imuStep_gyro_isSome st r st1 hstep
      have ih := runRows_headersPrecede rest st1 st' h
      rw [ha, hg] at ih
      rw [headersPrecede]
      by_cases hA : isAccelData r = true
      · have hsa := imuStep_accelData st r st1 hstep hA
        by_cases hG : isGyroData r = true
        · have hsg := imuStep_gyroData st r st1 hstep hG
          rw [hsa, hsg] at ih
          simp only [Bool.true_or] at ih
          simp [hA, hG, hsa, hsg, ih]
        · rw [hsa] at ih
          simp only [Bool.true_or] at ih
          simp [hA, hG, hsa, ih]
      · by_cases hG : isGyroData r = true
        · have hsg := imuStep_gyroData st r st1 hstep hG
          rw [hsg] at ih
          simp only [Bool.true_or] at ih
          simp [hA, hG, hsg, ih]
        · simp [hA, hG, ih]

/-- Claim C10: `AndroidRawImu.preprocess` returns successfully only when, in
the input CSV, an `Accel` header comment row precedes every `Accel` data row
and likewise for `Gyro`; on an input whose first `Accel` data row has no
preceding header comment it fails with the unbound-local-variable error
instead of returning a dataframe. -/
theorem claim_C10_imu_preprocess :
    (∀ (rows : List Row) (out : List Row × List Row),
       preprocess rows = Except.ok out →
       headersPrecede rows false false = true) ∧
    preprocess [["Accel", "1", "2", "3"]] =
      Except.error ImuError.unboundLocal := by
  constructor
  · intro rows out h
    rw [preprocess] at h
    cases hrun : runRows rows ⟨none, none⟩ with
    | error e => rw [hrun] at h; simp at h
    | ok st => exact runRows_headersPrecede rows ⟨none, none⟩ st hrun
  · decide

/-- Witness for claim C10: a log whose header comments do precede the data
rows preprocesses successfully, so the precedence check passes on it. -/
theorem claim_C10_imu_preprocess_witness :
    headersPrecede imuRows0 false false = true :=
  claim_C10_imu_preprocess.1 imuRows0 imuOut0 (by decide)

end Android

namespace GnssLib

/-- Each spline piece is anchored at its source point: projecting the pieces
to `(knot, value)` recovers the input points, whatever the polynomial
coefficients are. -/
theorem mkPieces_proj : ∀ (pts : List (ℚ × ℚ)) (cs : List (ℚ × ℚ × ℚ)),
    (mkPieces pts cs).map (fun p => (p.x, p.a)) = pts
  | [], _ => rfl
  | (x, y) :: rest, [] => by simp [mkPieces, mkPieces_proj rest []]
  | (x, y) :: rest, c :: cs => by simp [mkPieces, mkPieces_proj rest cs]

/-- The spline has one piece per input point. -/
theorem naturalSplinePieces_length (pts : List (ℚ × ℚ)) :
    (naturalSplinePieces pts).length = pts.length := by
  have hproj : (naturalSplinePieces pts).map (fun p => (p.x, p.a)) = pts :=
    mkPieces_proj pts (bcds pts (secondDerivs pts))
  have h := congrArg List.length hproj
  simpa using h

/-- The `i`-th piece carries the `i`-th knot and sample value. -/
theorem naturalSplinePieces_elem (pts : List (ℚ × ℚ)) (i : ℕ)
    (hi : i < (naturalSplinePieces pts).length) (hj : i < pts.length) :
    ((naturalSplinePieces pts)[i].x, (naturalSplinePieces pts)[i].a) =
      pts[i] := by
  have hproj : (naturalSplinePieces pts).map (fun p => (p.x, p.a)) = pts :=
    mkPieces_proj pts (bcds pts (secondDerivs pts))
  have him : i < ((naturalSplinePieces pts).map (fun p => (p.x, p.a))).length := by
    simpa using hi
  have h2 : ((naturalSplinePieces pts).map (fun p => (p.x, p.a)))[i]? =
      pts[i]? := by rw [hproj]
  rw [List.getElem?_eq_getElem him, List.getElem?_eq_getElem hj] at h2
  have h3 := Option.some.inj h2
  rw [List.getElem_map] at h3
  exact h3

/-- Strictly increasing sample times give strictly increasing piece knots. -/
theorem naturalSplinePieces_pairwise (pts : List (ℚ × ℚ))
    (h : pts.Pairwise (fun u v => u.1 < v.1)) :
    (naturalSplinePieces pts).Pairwise (fun u v : Piece => u.x < v.x) := by
  have hproj : (naturalSplinePieces pts).map (fun p => (p.x, p.a)) = pts :=
    mkPieces_proj pts (bcds pts (secondDerivs pts))
  rw [← hproj] at h
  exact List.Pairwise.of_map (fun p => (p.x, p.a)) (fun a b hab => hab) h

/-- On strictly increasing knots, the piece selected for the `i`-th knot time
is the `i`-th piece. -/
theorem pickPiece_knot : ∀ (ps : List Piece) (p : Piece) (i : ℕ)
    (hi : i < (p :: ps).length),
    (p :: ps).Pairwise (fun u v : Piece => u.x < v.x) →
    pickPiece p ps ((p :: ps)[i].x) = (p :: ps)[i]
  | [], _, 0, _, _ => rfl
  | [], _, i + 1, hi, _ => by simp at hi
  | q :: rest, p, 0, hi, hpw => by
    have hpq : p.x < q.x :=
      List.rel_of_pairwise_cons hpw (List.mem_cons_self q rest)
    show pickPiece p (q :: rest) p.x = p
    rw [pickPiece, if_neg (not_le.mpr hpq)]
  | q :: rest, p, i + 1, hi, hpw => by
    have hpw' : (q :: rest).Pairwise (fun u v : Piece => u.x < v.x) :=
      hpw.of_cons
    have hi' : i < (q :: rest).length := by simpa using hi
    have hq : q.x ≤ ((q :: rest)[i]).x := by
      match i, hi' with
      | 0, _ => exact le_refl _
      | j + 1, hj =>
        have hjr : j < rest.length := by simpa using hj
        have hmem : (q :: rest)[j + 1] ∈ rest := by
          rw [List.getElem_cons_succ]
          exact rest.getElem_mem hjr
        exact le_of_lt (List.rel_of_pairwise_cons hpw' hmem)
    show pickPiece p (q :: rest) ((q :: rest)[i].x) = (q :: rest)[i]
    rw [pickPiece, if_pos hq]
    exact pickPiece_knot rest q i hi' hpw'

/-- The interpolation property of the modelled spline: at every knot it
reproduces the sample value exactly (spec §4.2, numerical contract). -/
theorem evalSpline_knot : ∀ (ps : List Piece),
    ps.Pairwise (fun u v : Piece => u.x < v.x) →
    ∀ (i : ℕ) (hi : i < ps.length), evalSpline ps (ps[i].x) = ps[i].a
  | [], _, i, hi => by simp at hi
  | p :: rest, hpw, i, hi => by
    show evalPiece (pickPiece p rest ((p :: rest)[i].x)) ((p :: rest)[i].x) =
      (p :: rest)[i].a
    rw [pickPiece_knot rest p i hi hpw, evalPiece]
    ring

/-- Core of the round-trip property: for a record with strictly increasing
`tym` and aligned `clk_bias`, the snapshot of the extracted interpolant at a
sample time reproduces the stored bias exactly. -/
theorem clk_roundtrip_core (rec : Clk)
    (hpw : List.Pairwise (· < ·) rec.tym)
    (hlen : rec.tym.length = rec.clk_bias.length) (i ipos : ℕ)
    (hi : i < rec.tym.length) (m : Method) (hstep : ℚ) :
    ∃ f, extract_clk rec (i : ℤ) ipos m = Except.ok f ∧
      (clk_snapshot f (rec.tym.getD i 0) hstep m).1 =
        rec.clk_bias.getD i 0 := by
  have hcond : ¬((i : ℤ) < 0 ∨ (rec.tym.length : ℤ) ≤ (i : ℤ)) := by omega
  set pts := rec.tym.zip rec.clk_bias with hpts
  have hptslen : pts.length = rec.tym.length := by
    rw [hpts, List.length_zip, ← hlen, min_self]
  set lo := i - ipos with hlo
  set k := i + ipos + 1 - lo with hk
  set win := (pts.drop lo).take k with hwin
  set j := i - lo with hj
  have hwinlen : win.length = min k (pts.length - lo) := by
    rw [hwin, List.length_take, List.length_drop]
  have hjwin : j < win.length := by
    rw [hwinlen]
    omega
  have hjdrop : j < (pts.drop lo).length := by
    rw [List.length_drop]
    omega
  have hiw : lo + j < pts.length := by omega
  have hip : i < pts.length := by omega
  have hwj : win[j] = pts[i] := by
    have hq : win[j]? = pts[i]? := by
      rw [hwin, List.getElem?_take_of_lt (by omega : j < k), List.getElem?_drop,
        show lo + j = i from by omega]
    rw [List.getElem?_eq_getElem hjwin, List.getElem?_eq_getElem hip] at hq
    exact Option.some.inj hq
  set ns := naturalSplinePieces win with hns
  have hnslen : ns.length = win.length := naturalSplinePieces_length win
  have hjns : j < ns.length := by
    rw [hnslen]
    exact hjwin
  have hmapfst : pts.map Prod.fst = rec.tym :=
    List.map_fst_zip _ _ (le_of_eq hlen)
  have hptsPW : pts.Pairwise (fun u v : ℚ × ℚ => u.1 < v.1) := by
    rw [← hmapfst] at hpw
    exact List.pairwise_map.mp hpw
  have hwinsub : win.Sublist pts :=
    (List.take_sublist _ _).trans (List.drop_sublist _ _)
  have hwinPW : win.Pairwise (fun u v : ℚ × ℚ => u.1 < v.1) :=
    hptsPW.sublist hwinsub
  have hnsPW := naturalSplinePieces_pairwise win hwinPW
  have helem := naturalSplinePieces_elem win j hjns hjwin
  have hanchor := evalSpline_knot ns hnsPW j hjns
  have hib : i < rec.clk_bias.length := by omega
  have hzip : pts[i] = (rec.tym[i], rec.clk_bias[i]) := List.getElem_zip ..
  have hx : ns[j].x = rec.tym[i] := by
    have h := congrArg Prod.fst helem
    simpa [hwj, hzip] using h
  have ha : ns[j].a = rec.clk_bias[i] := by
    have h := congrArg Prod.snd helem
    simpa [hwj, hzip] using h
  refine ⟨⟨ns, m⟩, ?_, ?_⟩
  · rw [extract_clk, if_neg hcond]
    rfl
  · show evalSpline ns (rec.tym.getD i 0) = rec.clk_bias.getD i 0
    rw [List.getD_eq_getElem _ _ hi, List.getD_eq_getElem _ _ hib, ← hx, ← ha]
    exact hanchor

/-- Claim C1: for every record of a Parse Result and every sample index `i`
below the last one, the interpolant built by
`extract_clk(record, i, ipos=10, method=CubicSpline)`, evaluated by
`clk_snapshot` at query time `record.tym[i]` with `hstep = 5e-1`, yields a
bias estimate whose absolute difference from `record.clk_bias[i]`, scaled by
the speed-of-light constant `C`, is below `1e-6` (in this exact-arithmetic
model the difference is zero). -/
theorem claim_C1_roundtrip (arg : ClkArg) (fs : FileSystem)
    (res : ParseResult) (prn : String) (rec : Clk) (i : ℕ)
    (hres : parse_clockfile arg fs = Except.ok res)
    (hmem : (prn, rec) ∈ res) (hi : i + 1 < rec.tym.length) :
    ∃ f, extract_clk rec (i : ℤ) 10 Method.CubicSpline = Except.ok f ∧
      C * |(clk_snapshot f (rec.tym.getD i 0) (1 / 2) Method.CubicSpline).1 -
        rec.clk_bias.getD i 0| < 1 / 1000000 := by
  obtain ⟨ss, hrec⟩ := mem_parse_ok arg fs res prn rec hres hmem
  have hpw : List.Pairwise (· < ·) rec.tym := by
    rw [hrec]
    exact finalizeRecord_tym_pairwise prn ss
  have hlen : rec.tym.length = rec.clk_bias.length := by
    rw [hrec]
    exact (finalizeRecord_lengths prn ss).1
  obtain ⟨f, hf, heq⟩ := clk_roundtrip_core rec hpw hlen i 10 (by omega)
    Method.CubicSpline (1 / 2)
  refine ⟨f, hf, ?_⟩
  rw [heq, sub_self, abs_zero, mul_zero]
  norm_num

end GnssLib

/-! ## Witnesses needing rational-arithmetic evaluation -/

namespace GnssLib

attribute [local semireducible] Rat.add Rat.mul Rat.inv Rat.sub

/-- Witness for claim C6 at the concrete Parse Result. -/
theorem claim_C6_parallel_lengths_witness :
    wRec.tym.length = wRec.clk_bias.length ∧
    wRec.clk_bias.length = wRec.utc_time.length :=
  claim_C6_parallel_lengths (ClkArg.path "grg.clk") wFs wRes "G01" wRec
    (by decide) (by decide)

/-- Witness for claim C7 at the concrete Parse Result. -/
theorem claim_C7_monotone_tym_witness :
    List.Pairwise (· ≤ ·) wRec.tym ∧ List.Pairwise (· < ·) wRec.tym :=
  claim_C7_monotone_tym (ClkArg.path "grg.clk") wFs wRes "G01" wRec
    (by decide) (by decide)

/-- Witness for claim C1 at the concrete Parse Result, sample index 0 of
record `G01`. -/
theorem claim_C1_roundtrip_witness :
    ∃ f, extract_clk wRec ((0 : ℕ) : ℤ) 10 Method.CubicSpline = Except.ok f ∧
      C * |(clk_snapshot f (wRec.tym.getD 0 0) (1 / 2) Method.CubicSpline).1 -
        wRec.clk_bias.getD 0 0| < 1 / 1000000 :=
  claim_C1_roundtrip (ClkArg.path "grg.clk") wFs wRes "G01" wRec 0
    (by decide) (by decide) (by decide)

/-- Witness for claim C5 at the concrete Parse Result. -/
theorem claim_C5_distinct_sats_witness :
    wRes.length = ((dataRecords wLines).map DataRecord.prn).toFinset.card ∧
    (wRes.map Prod.fst).Nodup :=
  claim_C5_distinct_sats "grg.clk" wFs wLines wRes (by decide) (by decide)

end GnssLib

namespace Android

attribute [local semireducible] Rat.add Rat.mul Rat.inv Rat.sub

/-- Witness for claim C9 at a concrete one-column measurement table. -/
theorem claim_C9_postprocess_witness :
    (∀ r, r ≠ "corr_pr_m" → getRow nd0post r = getRow nd0 r) ∧
    ∃ raw bsv isb tropo iono corr,
      getRow nd0 "raw_pr_m" = some raw ∧
      getRow nd0 "b_sv_m" = some bsv ∧
      getRow nd0 "intersignal_bias_m" = some isb ∧
      getRow nd0 "tropo_delay_m" = some tropo ∧
      getRow nd0 "iono_delay_m" = some iono ∧
      getRow nd0post "corr_pr_m" = some corr ∧
      corr.length = raw.length ∧
      ∀ i, i < corr.length →
        corr.getD i 0 = raw.getD i 0 + bsv.getD i 0 - isb.getD i 0 -
          tropo.getD i 0 - iono.getD i 0 :=
  claim_C9_postprocess nd0 nd0post (by decide)

end Android
